import Mathlib

/-!
Shallow embedding of the cooperative event loop in
`src/core/src/trezor/loop.py` (scheduler tables, `schedule` / `pause` /
`finalize` / `close` / `run` / `_step`, and the syscalls `sleep`, `wait`,
`race`, `chan`).

Tasks and syscall objects are identified by `Nat` identities (Python
`id(...)` / pointer identity).  The mutable module-level tables `_queue`,
`_paused`, `_finalizers` and the mutable fields of `wait` / `race` / `chan`
objects live in an explicit `State` record that every operation threads
through.  Python generators (user coroutines) are abstracted as behaviour
functions `Value → Outcome`; the impersonating syscall objects (`wait`,
`race`) are translated from the source line by line.

A run of the loop records an event trace: task resumptions, queue pushes,
finalizer invocations, `task.close()` calls and log calls.  Operations that
can raise (`wait.send`'s `assert`, the `wait._TIMEOUT_ERROR` attribute
lookup in `wait.handle`, `raise RuntimeError` in `_step`) return the
escaping exception explicitly; `_step`'s `except` clauses catch exactly the
classes the source catches (`StopIteration`, then `Exception`; a
`BaseException` such as `GeneratorExit` is not caught and propagates).

Recursion between `finalize` → `race._finish` → `race.exit` → `close` →
`finalize` (and between `_step` → `wait.send` → `_step`) is bounded by an
explicit fuel parameter; every theorem supplies enough fuel that the fuel
bound is never the reason a branch is taken.
-/

namespace TrezorLoop

/-- Python exception objects that the loop creates or that task code can
raise.  `generatorExit` models `GeneratorExit`, which in Python derives from
`BaseException` but not from `Exception`; all the others are `Exception`
subclasses.  `user c` stands for an arbitrary application-level
`Exception` instance. -/
inductive Exc where
  | syscallTimeout
  | generatorExit
  | assertionError
  | attributeError
  | runtimeError
  | keyError
  | user (code : Nat)
deriving DecidableEq, Repr

/-- `isinstance(e, Exception)`: everything except `GeneratorExit`
(`BaseException`-only) in our exception universe. -/
def Exc.isExceptionClass : Exc → Bool
  | .generatorExit => false
  | _ => true

/-- Python values flowing through the loop: `None`, ints, strings, object
references (tasks and syscall objects, by identity), the class attribute
`wait._TIMEOUT_INDICATOR = object()`, the `wait._DO_NOT_RESCHEDULE =
Syscall()` sentinel, and exception objects. -/
inductive Value where
  | pnone
  | int (n : Int)
  | str (s : String)
  | obj (i : Nat)
  | timeoutIndicator
  | doNotReschedule
  | exc (e : Exc)
deriving DecidableEq, Repr

/-- `isinstance(v, BaseException)`. -/
def Value.isExc : Value → Bool
  | .exc _ => true
  | _ => false

/-- What one resumption of a user coroutine does: finish with a value
(`StopIteration(v)` out of `send`/`throw`), raise an exception, or yield a
value back to the scheduler. -/
inductive Outcome where
  | done (v : Value)
  | fault (e : Exc)
  | yields (v : Value)

/-- Kind of the object behind each identity: a user coroutine with its
behaviour, or one of the syscall object classes from the source.  `wait`
and `race` objects carry their mutable fields in `State` below. -/
inductive TaskKind where
  | user (behave : Value → Outcome)
  | waitObj
  | raceObj
  | sleepObj (delay_us : Int)
  | chanPutObj (ch : Nat) (v : Value)
  | chanTakeObj (ch : Nat)
  | plainSyscall

/-- The (immutable) object environment: which identity is which object. -/
def Env := Nat → TaskKind

/-- Mutable fields of a `wait` instance: `msg_iface`, `timeout_us` and
`callback` exactly as set by `wait.__init__` (source lines 253-256; note
`__init__` sets `callback = None` and nothing else ever assigns it). -/
structure WaitState where
  msg_iface : Nat
  timeout_us : Option Int
  callback : Option Nat
deriving DecidableEq, Repr

/-- Mutable fields of a `race` instance (`__init__` lines 338-341 plus the
`callback` attribute that only `handle` assigns; `none` models the
attribute not existing yet). -/
structure RaceState where
  children : List Nat
  scheduled : List Nat
  finished : Bool
  callback : Option Nat
deriving DecidableEq, Repr

/-- Mutable fields of a `chan` instance (source lines 455-457). A putter
entry `(none, v)` is a value published without a waiting task. -/
structure ChanState where
  putters : List (Option Nat × Value)
  takers : List Nat
deriving DecidableEq, Repr

/-- A finalizer callback registered in `_finalizers`: either an opaque
user-level function (identified by `fid`) or a bound `race._finish`
method of race object `rid`. -/
inductive FinRef where
  | user (fid : Nat)
  | raceFinish (rid : Nat)
deriving DecidableEq, Repr

/-- The module-level scheduler tables plus the mutable state of every
`wait` / `race` / `chan` object, and the current clock reading.

`queue` models the `utimeq` timed queue as a list of
`(deadline, task, value)` entries.  Modelled from the spec: `utimeq` is an
external C module, specified as a bounded min-heap keyed by absolute
deadline and stable for equal keys; we keep entries in push order and pop
the first entry with the minimal deadline.  The capacity bound (64) is not
modelled because no claim exercises overflow.

`paused` models the `_paused` dict `iface ↦ set of tasks`; association
list entries keep dict insertion order, and an interface key stays present
even after its task set becomes empty (exactly as in the source, where
only `_paused.pop(iface, ())` in `run` removes a key).

`clock` models `utime.ticks_us()`; tick arithmetic is modelled as exact
integer arithmetic (no claim involves clock wraparound). -/
structure State where
  clock : Int
  queue : List (Int × Nat × Value)
  paused : List (Nat × List Nat)
  finalizers : List (Nat × FinRef)
  waits : List (Nat × WaitState)
  races : List (Nat × RaceState)
  chans : List (Nat × ChanState)
deriving DecidableEq, Repr

/-- Observable events of a run: a task resumption (`task.send`/`throw`
inside `_step`), a `_queue.push` performed by `schedule`, a finalizer
invocation (user callback or `race._finish`), a `task.close()` call, and
the three log calls in `_step`. -/
inductive Event where
  | resumed (t : Nat) (v : Value)
  | sched (t : Nat) (v : Value) (deadline : Int)
  | finCall (fid : Nat) (t : Nat) (v : Value)
  | raceFinishCall (rid : Nat) (t : Nat) (v : Value)
  | taskClosed (t : Nat)
  | logDebug (t : Nat)
  | logExc (e : Exc)
  | logError
deriving DecidableEq, Repr

/-! ### Association-list operations mirroring Python dict semantics -/

/-- Dict lookup. -/
def alistLookup {β : Type} (k : Nat) : List (Nat × β) → Option β
  | [] => none
  | (k', v) :: rest => if k = k' then some v else alistLookup k rest

/-- Dict assignment `d[k] = v`: overwrite in place if the key exists,
otherwise append (dicts preserve insertion order). -/
def alistInsert {β : Type} (k : Nat) (v : β) : List (Nat × β) → List (Nat × β)
  | [] => [(k, v)]
  | (k', v') :: rest =>
    if k = k' then (k, v) :: rest else (k', v') :: alistInsert k v rest

/-- Dict deletion / `dict.pop(k, None)`.  Reachable dict states have unique
keys, so filtering every entry with key `k` coincides with removing the
single entry. -/
def alistRemove {β : Type} (k : Nat) (l : List (Nat × β)) : List (Nat × β) :=
  l.filter (fun e => e.1 ≠ k)

/-! ### Scheduler primitives (source lines 56-100) -/

/-- `schedule(task, value, deadline=None, finalizer=None)` (lines 56-69):
default the deadline to `utime.ticks_us()`, record the finalizer under the
task identity (overwriting), and push `(deadline, task, value)`. -/
def scheduleOp (s : State) (task : Nat) (value : Value)
    (deadline : Option Int) (finalizer : Option FinRef) : State × List Event :=
  let d := deadline.getD s.clock
  let s := match finalizer with
    | some f => { s with finalizers := alistInsert task f s.finalizers }
    | none => s
  ({ s with queue := s.queue ++ [(d, task, value)] }, [.sched task value d])

/-- `pause(task, iface)` (lines 72-81): get-or-create the interface's set
and add the task (set semantics: no duplicate). -/
def pauseOp (s : State) (task : Nat) (iface : Nat) : State :=
  match alistLookup iface s.paused with
  | none => { s with paused := alistInsert iface [task] s.paused }
  | some tasks =>
    { s with paused :=
        alistInsert iface (if task ∈ tasks then tasks else tasks ++ [task]) s.paused }

/-- `_queue.discard(task)`.  Modelled from the spec: `utimeq` is external;
`discard` drops the task's entries from the timed queue. -/
def queueDiscard (s : State) (task : Nat) : State :=
  { s with queue := s.queue.filter (fun e => e.2.1 ≠ task) }

/-- The loop `for iface in _paused: _paused[iface].discard(task)` from
`close` (lines 96-97): the task leaves every paused set, but every
interface key stays in the dict. -/
def pausedDiscardAll (s : State) (task : Nat) : State :=
  { s with paused := s.paused.map (fun e => (e.1, e.2.filter (fun t => t ≠ task))) }

/-- `_paused[iface].discard(task)` as used by `wait.send` / `wait.throw`
(lines 272, 290): plain indexing, so a missing key is a `KeyError`
(returned as `none`). -/
def pausedDiscardAt (s : State) (iface : Nat) (task : Nat) : Option State :=
  match alistLookup iface s.paused with
  | none => none
  | some ts =>
    some { s with paused := alistInsert iface (ts.filter (fun t => t ≠ task)) s.paused }

/-- `_paused.pop(iface, ())` in `run` (line 131): remove the interface key
and return its task set (empty if absent). -/
def pausedPop (s : State) (iface : Nat) : State × List Nat :=
  match alistLookup iface s.paused with
  | none => (s, [])
  | some ts => ({ s with paused := alistRemove iface s.paused }, ts)

/-- One step of stable minimum extraction: keep the first entry with the
smallest deadline, preserve the order of the rest. -/
def popMinAux (best : Int × Nat × Value) (acc : List (Int × Nat × Value)) :
    List (Int × Nat × Value) → (Int × Nat × Value) × List (Int × Nat × Value)
  | [] => (best, acc.reverse)
  | e :: rest =>
    if e.1 < best.1 then popMinAux e (best :: acc) rest
    else popMinAux best (e :: acc) rest

/-- `_queue.pop(task_entry)` (line 137).  Modelled from the spec: pop the
entry with the smallest deadline, stable for equal deadlines. -/
def queuePopMin (s : State) : Option ((Int × Nat × Value) × State) :=
  match s.queue with
  | [] => none
  | e :: rest =>
    let (top, remaining) := popMinAux e [] rest
    some (top, { s with queue := remaining })

/-- The `while _queue or _paused:` test of `run` (line 112).  Python
truthiness: `_queue` is truthy when it has entries, and the `_paused`
dict is truthy when it has keys — even keys whose task set is empty. -/
def runCond (s : State) : Bool :=
  !s.queue.isEmpty || !s.paused.isEmpty

/-! ### `finalize`, `close` and `race._finish` / `race.exit`

`finalize` can invoke `race._finish`, which closes the losing children,
and each `close` calls `finalize` again: the recursion is bounded by an
explicit fuel.  Every fuel pattern below returns the state unchanged at
fuel `0`; theorems always supply enough fuel that this branch is dead.

`task.close()` inside `close` is recorded as a `taskClosed` event;
generator-internal `GeneratorExit` cleanup (the `except` clauses of
`wait.__iter__` / `race.__iter__`) is not modelled because no claim
depends on it, and `wait.close` is `pass`. -/

/-- The four mutually recursive scheduler services, as one operation type
(a single recursive function reduces definitionally, which the theorems
rely on): `finalize(task, value)`, `race._finish(rid; task, result)`,
the loop of `race.exit(exceptFor)` over the scheduled list, and
`close(task)`. -/
inductive SvcOp where
  | fin (task : Nat) (value : Value)
  | finish (rid : Nat) (task : Nat) (result : Value)
  | exitLoop (scheduled : List Nat) (exceptFor : Nat)
  | close (task : Nat)

/-- Interpreter for `SvcOp`; each branch is the line-by-line translation
of the corresponding source function.

* `.fin` is `finalize(task, value)` (lines 84-88): pop the finalizer
  registered under the task identity, if any, and call it in one step.
* `.finish` is `race._finish(task, result)` (lines 389-395): if the race
  is not yet finished, mark it finished, `exit` every other scheduled
  child, and schedule the callback with the result.  (`self.callback` is
  only read after `handle` has assigned it: `_finish` is registered as a
  finalizer only by `handle`, so the `callback = none` branch is
  unreachable.)
* `.exitLoop` is the `for` loop of `race.exit(except_for)` (lines
  384-387): close every scheduled task other than `except_for`.
* `.close` is `close(task)` (lines 91-100): discard the task from every
  paused set and from the timed queue, call `task.close()`, then
  `finalize(task, GeneratorExit())`. -/
def svcF : Nat → State → SvcOp → State × List Event
  | 0, s, _ => (s, [])
  | fuel + 1, s, op =>
    match op with
    | .fin task value =>
      match alistLookup task s.finalizers with
      | none => (s, [])
      | some fin =>
        let s := { s with finalizers := alistRemove task s.finalizers }
        match fin with
        | .user fid => (s, [.finCall fid task value])
        | .raceFinish rid =>
          let r := svcF fuel s (.finish rid task value)
          (r.1, .raceFinishCall rid task value :: r.2)
    | .finish rid task result =>
      match alistLookup rid s.races with
      | none => (s, [])
      | some r =>
        if r.finished then (s, [])
        else
          let s := { s with races := alistInsert rid { r with finished := true } s.races }
          let e := svcF fuel s (.exitLoop r.scheduled task)
          match r.callback with
          | none => e
          | some cb =>
            let e2 := scheduleOp e.1 cb result none none
            (e2.1, e.2 ++ e2.2)
    | .exitLoop [] _ => (s, [])
    | .exitLoop (c :: cs) exceptFor =>
      if c = exceptFor then svcF fuel s (.exitLoop cs exceptFor)
      else
        let r1 := svcF fuel s (.close c)
        let r2 := svcF fuel r1.1 (.exitLoop cs exceptFor)
        (r2.1, r1.2 ++ r2.2)
    | .close task =>
      let s := pausedDiscardAll s task
      let s := queueDiscard s task
      let r := svcF fuel s (.fin task (.exc .generatorExit))
      (r.1, .taskClosed task :: r.2)

/-- `finalize(task, value)` (lines 84-88). -/
def finalizeF (fuel : Nat) (s : State) (task : Nat) (value : Value) :
    State × List Event :=
  svcF fuel s (.fin task value)

/-- `race._finish(task, result)` of race `rid` (lines 389-395). -/
def finishF (fuel : Nat) (s : State) (rid task : Nat) (result : Value) :
    State × List Event :=
  svcF fuel s (.finish rid task result)

/-- `race.exit(exceptFor)` of race children `scheduled` (lines 384-387). -/
def exitF (fuel : Nat) (s : State) (scheduled : List Nat) (exceptFor : Nat) :
    State × List Event :=
  svcF fuel s (.exitLoop scheduled exceptFor)

/-- `close(task)` (lines 91-100). -/
def closeF (fuel : Nat) (s : State) (task : Nat) : State × List Event :=
  svcF fuel s (.close task)

/-! ### Syscall `handle` methods -/

/-- `isinstance(result, Syscall)` for a yielded value: object references
whose class derives from `Syscall`, plus the `_DO_NOT_RESCHEDULE`
sentinel (itself a `Syscall()` instance).  User coroutines (generators)
are not `Syscall`s. -/
def isSyscallV (env : Env) : Value → Bool
  | .doNotReschedule => true
  | .obj i =>
    match env i with
    | .user _ => false
    | _ => true
  | _ => false

/-- Attribute table of the `wait` class body (lines 250-251): it defines
`_DO_NOT_RESCHEDULE` and `_TIMEOUT_INDICATOR`.  The name `_TIMEOUT_ERROR`
used at line 265 is only a module-level global; class attribute lookup
`wait._TIMEOUT_ERROR` does not reach module globals, so it is absent
here and the lookup raises `AttributeError`. -/
def waitClassAttr : String → Option Value
  | "_DO_NOT_RESCHEDULE" => some .doNotReschedule
  | "_TIMEOUT_INDICATOR" => some .timeoutIndicator
  | _ => none

/-- `wait.handle(task)` (lines 258-265): `pause(self, self.msg_iface)`;
if a timeout is set, `schedule(self, wait._TIMEOUT_ERROR, deadline)`.
Note that the source never assigns `self.callback` here (the argument
`task` is unused), and that the `wait._TIMEOUT_ERROR` class-attribute
lookup fails with `AttributeError` (returned as the escaping
exception). -/
def waitHandleF (s : State) (wid : Nat) (_task : Nat) :
    State × List Event × Option Exc :=
  match alistLookup wid s.waits with
  | none => (s, [], none)
  | some w =>
    let s1 := pauseOp s wid w.msg_iface
    match w.timeout_us with
    | none => (s1, [], none)
    | some t =>
      let deadline := s1.clock + t
      match waitClassAttr "_TIMEOUT_ERROR" with
      | none => (s1, [], some .attributeError)
      | some v =>
        let r := scheduleOp s1 wid v (some deadline) none
        (r.1, r.2, none)

/-- The loop body of `race.handle` (lines 354-370) folded over the
children: schedule each child with `self._finish` as finalizer and append
it to the scheduled list.  All children are modelled as generator tasks
(`isinstance(child, _type_gen)` true), so the `iter(child)` branch is not
taken. -/
def raceScheduleChildren (rid : Nat) :
    List Nat → State × List Nat × List Event → State × List Nat × List Event
  | [], acc => acc
  | c :: cs, (s, sched, evs) =>
    let r := scheduleOp s c .pnone none (some (.raceFinish rid))
    raceScheduleChildren rid cs (r.1, sched ++ [c], evs ++ r.2)

/-- `race.handle(task)` (lines 343-370): store `task` as callback, clear
the scheduled list, reset `finished`, then schedule every child with
`self._finish` as its finalizer. -/
def raceHandleF (s : State) (rid : Nat) (task : Nat) : State × List Event :=
  match alistLookup rid s.races with
  | none => (s, [])
  | some r =>
    let r0 := { r with callback := some task, scheduled := ([] : List Nat), finished := false }
    let s := { s with races := alistInsert rid r0 s.races }
    let f := raceScheduleChildren rid r.children (s, [], [])
    match alistLookup rid f.1.races with
    | none => (f.1, f.2.2)
    | some r' =>
      ({ f.1 with races := alistInsert rid { r' with scheduled := f.2.1 } f.1.races }, f.2.2)

/-- `sleep.handle(task)` (lines 226-228): compute the deadline and
schedule the task with the deadline as its resume value. -/
def sleepHandleF (s : State) (delay_us : Int) (task : Nat) : State × List Event :=
  let deadline := s.clock + delay_us
  scheduleOp s task (.int deadline) (some deadline) none

/-- `chan.publish(value)` (lines 478-483): wake the first parked taker
with the value, or park `(None, value)` as a putter. -/
def chanPublishF (s : State) (ch : Nat) (value : Value) : State × List Event :=
  match alistLookup ch s.chans with
  | none => (s, [])
  | some c =>
    match c.takers with
    | taker :: rest =>
      let s := { s with chans := alistInsert ch { c with takers := rest } s.chans }
      scheduleOp s taker value none none
    | [] =>
      ({ s with chans :=
          alistInsert ch { c with putters := c.putters ++ [(none, value)] } s.chans }, [])

/-- `chan._schedule_put(putter, value)` (lines 485-493). -/
def chanSchedulePutF (s : State) (ch : Nat) (putter : Nat) (value : Value) :
    State × List Event :=
  match alistLookup ch s.chans with
  | none => (s, [])
  | some c =>
    match c.takers with
    | taker :: rest =>
      let s := { s with chans := alistInsert ch { c with takers := rest } s.chans }
      let r1 := scheduleOp s taker value none none
      let r2 := scheduleOp r1.1 putter .pnone none none
      (r2.1, r1.2 ++ r2.2)
    | [] =>
      ({ s with chans :=
          alistInsert ch { c with putters := c.putters ++ [(some putter, value)] } s.chans }, [])

/-- `chan._schedule_take(taker)` (lines 495-502). -/
def chanScheduleTakeF (s : State) (ch : Nat) (taker : Nat) : State × List Event :=
  match alistLookup ch s.chans with
  | none => (s, [])
  | some c =>
    match c.putters with
    | (putter, value) :: rest =>
      let s := { s with chans := alistInsert ch { c with putters := rest } s.chans }
      let r1 := scheduleOp s taker value none none
      match putter with
      | some p =>
        let r2 := scheduleOp r1.1 p .pnone none none
        (r2.1, r1.2 ++ r2.2)
      | none => r1
    | [] =>
      ({ s with chans := alistInsert ch { c with takers := c.takers ++ [taker] } s.chans }, [])

/-- `result.handle(task)` dispatch in `_step` (line 185), by the class of
the yielded syscall object.  The base `Syscall.handle` (and hence the
`_DO_NOT_RESCHEDULE` sentinel) does nothing. -/
def handleF (env : Env) (s : State) (target : Value) (task : Nat) :
    State × List Event × Option Exc :=
  match target with
  | .obj i =>
    match env i with
    | .waitObj => waitHandleF s i task
    | .raceObj =>
      let r := raceHandleF s i task
      (r.1, r.2, none)
    | .sleepObj d =>
      let r := sleepHandleF s d task
      (r.1, r.2, none)
    | .chanPutObj ch v =>
      let r := chanSchedulePutF s ch task v
      (r.1, r.2, none)
    | .chanTakeObj ch =>
      let r := chanScheduleTakeF s ch task
      (r.1, r.2, none)
    | .plainSyscall => (s, [], none)
    | .user _ => (s, [], none)
  | _ => (s, [], none)

/-- Result of calling `send` / `throw` on a `wait` object: the returned
value, or the exception the call raised (`assert` failure, `KeyError`). -/
inductive PyRes where
  | ok (v : Value)
  | err (e : Exc)
deriving DecidableEq, Repr

/-! ### `_step`, `wait.send`, `wait.throw`

`_step` resumes a task; when the task is a `wait` object, the resumption
runs `wait.send` / `wait.throw`, which in turn `_step` the stored
callback — hence the fuel-bounded mutual recursion.  The third component
of `stepF`'s result is the exception escaping `_step`, if any (a
`BaseException` not caught by the `except` clauses, or the
`RuntimeError` raised on a malformed yield). -/

/-- The three mutually recursive stepping operations as one operation
type (again so that one self-recursive function reduces definitionally):
`_step(task, value)`, `wait.send(value)` on a wait object, and
`wait.throw(exception)` on a wait object. -/
inductive StepOp where
  | step (task : Nat) (value : Value)
  | wsend (wid : Nat) (value : Value)
  | wthrow (wid : Nat) (exception : Value)

/-- Interpreter for `StepOp`.  The `PyRes` component is the call's Python
outcome: `.ok v` a normal return of `v` (`_step` returns `None`;
`wait.send` / `wait.throw` return `_DO_NOT_RESCHEDULE`), `.err e` an
exception `e` escaping the call.

* `.step` is `_step(task, value)` (lines 152-191): deliver the value
  with `throw` if it is an exception else with `send`; catch
  `StopIteration` (log, `finalize` with the final value); catch
  `Exception` (log, `finalize` with the exception); on a yielded
  `Syscall` call its `handle`; on any other yield log an error and raise
  `RuntimeError`.  A `BaseException` outside `Exception` (such as
  `GeneratorExit`) matches no `except` clause and escapes.  Resuming a
  wait object runs `wait.send` / `wait.throw`; an exception raised there
  is an exception raised by `task.send(value)` / `task.throw(value)` and
  is dispatched by the same `except` clauses.  (`after_step_hook` is
  `None` and is not modelled.)
* `.wsend` is `wait.send(value)` (lines 267-280): assert the callback
  was stored; on the timeout indicator discard the I/O wait
  (`_paused[self.msg_iface].discard(self)`, a `KeyError` if the
  interface key is gone) and substitute the `SyscallTimeout` error;
  otherwise, if a timeout was set, discard the scheduled timeout;
  `_step` the callback with the resolved value and return
  `_DO_NOT_RESCHEDULE`.
* `.wthrow` is `wait.throw(exception)` (lines 282-293): assert the
  callback was stored; discard both the scheduled timeout and the I/O
  wait; `_step` the callback with the exception and return
  `_DO_NOT_RESCHEDULE`. -/
def stepX (env : Env) : Nat → State → StepOp → State × List Event × PyRes
  | 0, s, _ => (s, [], .ok .pnone)
  | fuel + 1, s, op =>
    match op with
    | .step task value =>
      let ev0 := Event.resumed task value
      match env task with
      | .user behave =>
        match behave value with
        | .done v =>
          let r := finalizeF fuel s task v
          (r.1, ev0 :: .logDebug task :: r.2, .ok .pnone)
        | .fault e =>
          if e.isExceptionClass then
            let r := finalizeF fuel s task (.exc e)
            (r.1, ev0 :: .logExc e :: r.2, .ok .pnone)
          else (s, [ev0], .err e)
        | .yields rv =>
          if isSyscallV env rv then
            let r := handleF env s rv task
            (r.1, ev0 :: r.2.1, match r.2.2 with
              | some e => .err e
              | none => .ok .pnone)
          else (s, [ev0, .logError], .err .runtimeError)
      | .waitObj =>
        let r :=
          if value.isExc then stepX env fuel s (.wthrow task value)
          else stepX env fuel s (.wsend task value)
        match r.2.2 with
        | .err e =>
          if e.isExceptionClass then
            let f := finalizeF fuel r.1 task (.exc e)
            (f.1, ev0 :: r.2.1 ++ .logExc e :: f.2, .ok .pnone)
          else (r.1, ev0 :: r.2.1, .err e)
        | .ok rv =>
          if isSyscallV env rv then
            let h := handleF env r.1 rv task
            (h.1, ev0 :: r.2.1 ++ h.2.1, match h.2.2 with
              | some e => .err e
              | none => .ok .pnone)
          else (r.1, ev0 :: r.2.1 ++ [.logError], .err .runtimeError)
      | _ => (s, [ev0], .err .attributeError)
    | .wsend wid value =>
      match alistLookup wid s.waits with
      | none => (s, [], .err .attributeError)
      | some w =>
        match w.callback with
        | none => (s, [], .err .assertionError)
        | some cb =>
          if value = .timeoutIndicator then
            match pausedDiscardAt s w.msg_iface wid with
            | none => (s, [], .err .keyError)
            | some s1 =>
              let r := stepX env fuel s1 (.step cb (.exc .syscallTimeout))
              match r.2.2 with
              | .err e => (r.1, r.2.1, .err e)
              | .ok _ => (r.1, r.2.1, .ok .doNotReschedule)
          else
            let s1 := match w.timeout_us with
              | some _ => queueDiscard s wid
              | none => s
            let r := stepX env fuel s1 (.step cb value)
            match r.2.2 with
            | .err e => (r.1, r.2.1, .err e)
            | .ok _ => (r.1, r.2.1, .ok .doNotReschedule)
    | .wthrow wid exception =>
      match alistLookup wid s.waits with
      | none => (s, [], .err .attributeError)
      | some w =>
        match w.callback with
        | none => (s, [], .err .assertionError)
        | some cb =>
          let s1 := queueDiscard s wid
          match pausedDiscardAt s1 w.msg_iface wid with
          | none => (s1, [], .err .keyError)
          | some s2 =>
            let r := stepX env fuel s2 (.step cb exception)
            match r.2.2 with
            | .err e => (r.1, r.2.1, .err e)
            | .ok _ => (r.1, r.2.1, .ok .doNotReschedule)

/-- `_step(task, value)` (lines 152-191); the third component is the
exception escaping `_step`, if any. -/
def stepF (env : Env) (fuel : Nat) (s : State) (task : Nat) (value : Value) :
    State × List Event × Option Exc :=
  let r := stepX env fuel s (.step task value)
  (r.1, r.2.1, match r.2.2 with
    | .err e => some e
    | .ok _ => none)

/-- `wait.send(value)` on wait object `wid` (lines 267-280). -/
def waitSendF (env : Env) (fuel : Nat) (s : State) (wid : Nat) (value : Value) :
    State × List Event × PyRes :=
  stepX env fuel s (.wsend wid value)

/-- `wait.throw(exception)` on wait object `wid` (lines 282-293). -/
def waitThrowF (env : Env) (fuel : Nat) (s : State) (wid : Nat) (exception : Value) :
    State × List Event × PyRes :=
  stepX env fuel s (.wthrow wid exception)

/-- `for task in msg_tasks: _step(task, value)` (lines 132-133); an
exception escaping one `_step` aborts the loop and propagates. -/
def stepAllF (env : Env) (fuel : Nat) :
    State → List Nat → Value → State × List Event × Option Exc
  | s, [], _ => (s, [], none)
  | s, t :: ts, v =>
    let r := stepF env fuel s t v
    match r.2.2 with
    | some e => (r.1, r.2.1, some e)
    | none =>
      let rest := stepAllF env fuel r.1 ts v
      (rest.1, r.2.1 ++ rest.2.1, rest.2.2)

/-- Result of running the loop for a bounded number of iterations. -/
inductive RunRes where
  | returned (s : State) (evs : List Event)
  | crashed (s : State) (evs : List Event) (e : Exc)
  | outOfFuel (s : State) (evs : List Event)
deriving DecidableEq, Repr

/-- Prefix the event trace of a run result. -/
def RunRes.prepend (evs : List Event) : RunRes → RunRes
  | .returned s evs' => .returned s (evs ++ evs')
  | .crashed s evs' e => .crashed s (evs ++ evs') e
  | .outOfFuel s evs' => .outOfFuel s (evs ++ evs')

/-- `run()` (lines 103-141).  Each loop iteration consumes one element of
the poll trace: `some (iface, v)` models `io.poll` returning an I/O event
(the source then pops the interface key from `_paused` and steps every
task of its set), `none` models `io.poll` timing out (the source then
pops and steps the head of the timed queue, if any).  The `delay`
computation only parameterizes `io.poll`, whose outcome the trace
supplies, and the `__debug__` synthetic-event path is not modelled.  An
exception escaping `_step` propagates out of `run`
(`RunRes.crashed`). -/
def runF (env : Env) : Nat → List (Option (Nat × Value)) → State → RunRes
  | 0, _, s => .outOfFuel s []
  | fuel + 1, trace, s =>
    if runCond s then
      match trace with
      | [] => .outOfFuel s []
      | p :: rest =>
        match p with
        | some (iface, v) =>
          let (s1, tasks) := pausedPop s iface
          let r := stepAllF env fuel s1 tasks v
          match r.2.2 with
          | some e => .crashed r.1 r.2.1 e
          | none => (runF env fuel rest r.1).prepend r.2.1
        | none =>
          match queuePopMin s with
          | none => runF env fuel rest s
          | some ((_, t, v), s1) =>
            let r := stepF env fuel s1 t v
            match r.2.2 with
            | some e => .crashed r.1 r.2.1 e
            | none => (runF env fuel rest r.1).prepend r.2.1
    else .returned s []

/-! ### Observation helpers for the claims -/

/-- Is this event an invocation of task `t`'s finalizer (either a user
callback or `race._finish`)? -/
def isFinInvocationFor (t : Nat) : Event → Bool
  | .finCall _ t' _ => t' = t
  | .raceFinishCall _ t' _ => t' = t
  | _ => false

/-- The finalizer invocations for task `t` in a trace. -/
def finInvocationsFor (evs : List Event) (t : Nat) : List Event :=
  evs.filter (isFinInvocationFor t)

/-- Is this event a `_queue.push` scheduling task `t`? -/
def isSchedFor (t : Nat) : Event → Bool
  | .sched t' _ _ => t' = t
  | _ => false

/-- The scheduling events for task `t` in a trace. -/
def schedEventsFor (evs : List Event) (t : Nat) : List Event :=
  evs.filter (isSchedFor t)

/-- Is this event a resumption (`_step`) of task `t`? -/
def isResumedFor (t : Nat) : Event → Bool
  | .resumed t' _ => t' = t
  | _ => false

/-- The resumptions of task `t` in a trace. -/
def resumedEventsFor (evs : List Event) (t : Nat) : List Event :=
  evs.filter (isResumedFor t)

/-- Does task `t` occur in any scheduler table (timed queue, some paused
set, or the finalizer table)? -/
def taskInTables (s : State) (t : Nat) : Bool :=
  s.queue.any (fun e => e.2.1 = t) ||
  s.paused.any (fun e => t ∈ e.2) ||
  (alistLookup t s.finalizers).isSome

/-- Every paused set is empty (though its interface key may remain). -/
def pausedSetsEmpty (s : State) : Bool :=
  s.paused.all (fun e => e.2.isEmpty)

/-- No task is anywhere in the system: the timed queue is empty and every
paused set is empty. -/
def noTaskInSystem (s : State) : Bool :=
  s.queue.isEmpty && pausedSetsEmpty s

/-- The channel invariant of the spec: for channel `ch`, at most one of
`putters` and `takers` is non-empty. -/
def chanInv (s : State) (ch : Nat) : Bool :=
  match alistLookup ch s.chans with
  | none => true
  | some c => c.putters.isEmpty || c.takers.isEmpty

/-- A channel-facing operation: `publish(v)`, `Put(ch, v).handle(task)`
(which calls `_schedule_put`), or `Take(ch).handle(task)` (which calls
`_schedule_take`), addressed to a channel id. -/
inductive ChanOp where
  | publish (v : Value)
  | putHandle (task : Nat) (v : Value)
  | takeHandle (task : Nat)

/-- Apply one channel operation to the state. -/
def applyChanOp (s : State) : Nat × ChanOp → State
  | (ch, .publish v) => (chanPublishF s ch v).1
  | (ch, .putHandle task v) => (chanSchedulePutF s ch task v).1
  | (ch, .takeHandle task) => (chanScheduleTakeF s ch task).1

/-- Fold `publish` over a list of values on one channel, collecting the
scheduling events. -/
def publishAll (s : State) (ch : Nat) : List Value → State × List Event
  | [] => (s, [])
  | v :: vs =>
    let r := chanPublishF s ch v
    let rest := publishAll r.1 ch vs
    (rest.1, r.2 ++ rest.2)

/-- Fold `_schedule_take` over a list of taker tasks on one channel,
collecting the scheduling events. -/
def takeAll (s : State) (ch : Nat) : List Nat → State × List Event
  | [] => (s, [])
  | t :: ts =>
    let r := chanScheduleTakeF s ch t
    let rest := takeAll r.1 ch ts
    (rest.1, r.2 ++ rest.2)

/-- The state `close(c)` produces when `c`'s finalizer cascade is a
no-op: `c` discarded from every paused set and from the timed queue, and
`c`'s finalizer entry popped. -/
def closedState (s : State) (c : Nat) : State :=
  { s with
    queue := s.queue.filter (fun e => e.2.1 ≠ c),
    paused := s.paused.map (fun e => (e.1, e.2.filter (fun t => t ≠ c))),
    finalizers := alistRemove c s.finalizers }

/-- The event trace `race.exit(exceptFor)` produces when every task in the
list carries `race._finish` of race `rid` as its finalizer and the race is
already marked finished: each loser is closed and its finalizer fires as
a guarded no-op. -/
def exitEvents (rid exceptFor : Nat) : List Nat → List Event
  | [] => []
  | c :: cs =>
    if c = exceptFor then exitEvents rid exceptFor cs
    else .taskClosed c :: .raceFinishCall rid c (.exc .generatorExit) ::
      exitEvents rid exceptFor cs

/-! ### Concrete scenario environments and states -/

/-- Build an object environment from an association list; unlisted
identities are inert `Syscall()` instances. -/
def mkEnv (l : List (Nat × TaskKind)) : Env :=
  fun i => (alistLookup i l).getD .plainSyscall

/-- The empty scheduler state. -/
def emptyState : State :=
  { clock := 0, queue := [], paused := [], finalizers := [], waits := [],
    races := [], chans := [] }

/-- Task `0` is a coroutine that awaits the `wait` object `1`
(`yield`ing it on every resumption). -/
def awaitWaitEnv : Env :=
  mkEnv [(0, .user (fun _ => .yields (.obj 1))), (1, .waitObj)]

/-- Task `0` scheduled; object `1` is `wait(msg_iface=7, timeout_us=500)`. -/
def waitTimeoutState : State :=
  { emptyState with
    queue := [(0, 0, .pnone)],
    waits := [(1, { msg_iface := 7, timeout_us := some 500, callback := none })] }

/-- Task `0` scheduled; object `1` is `wait(msg_iface=7)` (no timeout). -/
def waitNoTimeoutState : State :=
  { emptyState with
    queue := [(0, 0, .pnone)],
    waits := [(1, { msg_iface := 7, timeout_us := none, callback := none })] }

/-- Task `0` is a coroutine that raises `GeneratorExit` when resumed
(exactly what happens when a task resumed with the cancellation sentinel
lets it propagate, as `race._finish`'s own comment anticipates). -/
def gexitFaultEnv : Env :=
  mkEnv [(0, .user (fun _ => .fault .generatorExit))]

/-- Task `0` scheduled, with a user finalizer `99` registered. -/
def faultState : State :=
  { emptyState with queue := [(0, 0, .pnone)], finalizers := [(0, .user 99)] }

/-- Task `0` is a coroutine that raises an ordinary `Exception` when
resumed. -/
def userFaultEnv : Env :=
  mkEnv [(0, .user (fun _ => .fault (.user 5)))]

/-- A state in which every task has left the system but interface `7`
still has its (empty) paused-set entry — exactly what `close` leaves
behind after removing the last waiter of interface `7`. -/
def emptyKeyState : State :=
  { emptyState with paused := [(7, [])] }

/-- Task `0` is a coroutine that awaits the `race` object `1`. -/
def awaitRaceEnv : Env :=
  mkEnv [(0, .user (fun _ => .yields (.obj 1))), (1, .raceObj)]

/-- Task `0` scheduled; object `1` is `race()` with zero children. -/
def emptyRaceState : State :=
  { emptyState with
    queue := [(0, 0, .pnone)],
    races := [(1, { children := [], scheduled := [], finished := false, callback := none })] }

/-- A race `5` after its `handle` ran: caller `0` stored as callback,
children `1` and `2` scheduled with `race._finish` as their finalizer. -/
def racePostHandleState : State :=
  { emptyState with
    queue := [(0, 1, .pnone), (0, 2, .pnone)],
    finalizers := [(1, .raceFinish 5), (2, .raceFinish 5)],
    races := [(5, { children := [1, 2], scheduled := [1, 2], finished := false,
                    callback := some 0 })] }

/-- A state containing one fresh (empty) channel with identity `3`. -/
def oneChanState : State :=
  { emptyState with chans := [(3, { putters := [], takers := [] })] }

/-! ## Lemmas about the dict operations -/

theorem alistLookup_insert_self {β : Type} (k : Nat) (v : β) (l : List (Nat × β)) :
    alistLookup k (alistInsert k v l) = some v := by
  induction l with
  | nil => simp [alistInsert, alistLookup]
  | cons e rest ih =>
    by_cases h : k = e.1
    · simp [alistInsert, alistLookup, h]
    · simpa [alistInsert, alistLookup, h] using ih

theorem alistLookup_insert_ne {β : Type} {k k' : Nat} (v : β) (l : List (Nat × β))
    (h : k ≠ k') : alistLookup k (alistInsert k' v l) = alistLookup k l := by
  induction l with
  | nil => simp [alistInsert, alistLookup, h]
  | cons e rest ih =>
    by_cases h' : k' = e.1
    · subst h'
      simp [alistInsert, alistLookup, h]
    · by_cases h'' : k = e.1 <;> simp [alistInsert, alistLookup, h', h'', ih]

theorem alistRemove_cons {β : Type} (k : Nat) (e : Nat × β) (rest : List (Nat × β)) :
    alistRemove k (e :: rest) =
      if e.1 = k then alistRemove k rest else e :: alistRemove k rest := by
  by_cases h : e.1 = k <;> simp [alistRemove, h]

theorem alistLookup_remove_self {β : Type} (k : Nat) (l : List (Nat × β)) :
    alistLookup k (alistRemove k l) = none := by
  induction l with
  | nil => simp [alistRemove, alistLookup]
  | cons e rest ih =>
    rw [alistRemove_cons]
    by_cases h : e.1 = k
    · rw [if_pos h]
      exact ih
    · rw [if_neg h]
      have hne : ¬k = e.1 := fun hk => h hk.symm
      simp [alistLookup, hne, ih]

theorem alistLookup_remove_ne {β : Type} {k k' : Nat} (l : List (Nat × β))
    (h : k ≠ k') : alistLookup k (alistRemove k' l) = alistLookup k l := by
  induction l with
  | nil => simp [alistRemove, alistLookup]
  | cons e rest ih =>
    rw [alistRemove_cons]
    by_cases h' : e.1 = k'
    · have hne : k ≠ e.1 := fun hk => h (hk.trans h')
      rw [if_pos h', ih, alistLookup, if_neg hne]
    · rw [if_neg h']
      by_cases h'' : k = e.1 <;> simp [alistLookup, h'', ih]

/-! ## Projection lemmas -/

theorem pauseOp_waits (s : State) (t i : Nat) : (pauseOp s t i).waits = s.waits := by
  unfold pauseOp
  cases alistLookup i s.paused <;> rfl

/-! ## Claims -/

/-- C1: the claim says a `wait(interface, timeout)` whose timer fires
first resumes the caller with a `TimeoutError` and leaves the wait object
in neither the paused set nor the timed queue.  On the code this scenario
crashes instead: task `0` awaits `wait(msg_iface=7, timeout_us=500)`, and
`wait.handle` — after pausing the wait object on interface 7 — evaluates
`wait._TIMEOUT_ERROR`, which is not an attribute of the `wait` class
(only `_TIMEOUT_INDICATOR` and `_DO_NOT_RESCHEDULE` are), so an
`AttributeError` escapes `_step`'s `else` block and aborts `run()`; the
wait object is still in interface 7's paused set and the caller is never
resumed with the timeout error. -/
theorem c1_wait_timeout_crashes_run :
    runF awaitWaitEnv 3 [none] waitTimeoutState =
      RunRes.crashed { waitTimeoutState with queue := [], paused := [(7, [1])] }
        [Event.resumed 0 Value.pnone] Exc.attributeError ∧
    taskInTables { waitTimeoutState with queue := [], paused := [(7, [1])] } 1 = true ∧
    resumedEventsFor [Event.resumed 0 Value.pnone] 0 = [Event.resumed 0 Value.pnone] ∧
    finInvocationsFor [Event.resumed 0 Value.pnone] 0 = [] := by
  refine ⟨by decide, by decide, by decide, by decide⟩

/-- C2: the claim says `wait.handle(caller)` stores `caller` as the wait
object's callback so that `wait.send` / `wait.throw`'s
`assert callback is not None` always holds and the caller is stepped with
the resolved value.  On the code, `handle` (lines 258-265) never assigns
`self.callback` — only `__init__` sets it to `None` — so the first
conjunct shows `handle` leaves every wait object's fields untouched, and
the concrete run shows the consequence: task `0` awaits
`wait(msg_iface=7)`, an I/O event `"evt"` arrives on interface 7,
`wait.send` hits the failed assertion, `_step` catches the
`AssertionError` and finalizes the wait object with it, and the caller is
never resumed with the event value. -/
theorem c2_wait_handle_does_not_store_callback :
    (∀ (s : State) (wid task : Nat), (waitHandleF s wid task).1.waits = s.waits) ∧
    runF awaitWaitEnv 5 [none, some (7, Value.str "evt")] waitNoTimeoutState =
      RunRes.returned { waitNoTimeoutState with queue := [] }
        [Event.resumed 0 Value.pnone, Event.resumed 1 (Value.str "evt"),
         Event.logExc Exc.assertionError] ∧
    resumedEventsFor
      [Event.resumed 0 Value.pnone, Event.resumed 1 (Value.str "evt"),
       Event.logExc Exc.assertionError] 0 = [Event.resumed 0 Value.pnone] := by
  refine ⟨?_, by decide, by decide⟩
  intro s wid task
  cases h : alistLookup wid s.waits with
  | none => simp [waitHandleF, h]
  | some w =>
    cases ht : w.timeout_us with
    | none => simp [waitHandleF, h, ht, pauseOp_waits]
    | some t => simp [waitHandleF, h, ht, waitClassAttr, pauseOp_waits]

/-- C8, counterexample: the claim quantifies over every resume in which
the task raises an exception other than `StopIteration`, but `_step`'s
`except Exception` clause does not catch `BaseException`s outside
`Exception`.  Concretely, a task that raises `GeneratorExit` (which is
exactly what a task resumed with the cancellation sentinel does when it
lets the exception propagate, as `race._finish`'s comment anticipates) is
neither logged-and-finalized nor contained: its registered finalizer `99`
is never invoked, its finalizer entry survives, and the exception escapes
`_step` and aborts the run loop instead of the loop continuing. -/
theorem c8_generator_exit_escapes_uncaught :
    runF gexitFaultEnv 3 [none] faultState =
      RunRes.crashed { faultState with queue := [] }
        [Event.resumed 0 Value.pnone] Exc.generatorExit ∧
    finInvocationsFor [Event.resumed 0 Value.pnone] 0 = [] ∧
    alistLookup 0 ({ faultState with queue := [] }).finalizers = some (.user 99) := by
  refine ⟨by decide, by decide, by decide⟩

/-- C8, amended: for every task resume in which the task raises an
exception that is an instance of `Exception` (other than
`StopIteration`), `_step` logs it, invokes `finalize` on the task with
that exception as the result, and returns normally (no exception escapes,
so the run loop continues with the remaining tasks); in particular, when
a user finalizer is registered it is called with the exception.
Exceptions outside the `Exception` class (such as `GeneratorExit`)
instead propagate out of `_step`. -/
theorem c8_amended_fault_contained (env : Env) (s : State) (t : Nat)
    (b : Value → Outcome) (v : Value) (e : Exc) (fuel : Nat)
    (henv : env t = .user b) (hb : b v = .fault e)
    (he : e.isExceptionClass = true) :
    stepF env (fuel + 1 + 1) s t v =
      ((finalizeF (fuel + 1) s t (.exc e)).1,
       .resumed t v :: .logExc e :: (finalizeF (fuel + 1) s t (.exc e)).2,
       none) ∧
    (∀ fid, alistLookup t s.finalizers = some (.user fid) →
      stepF env (fuel + 1 + 1) s t v =
        ({ s with finalizers := alistRemove t s.finalizers },
         [.resumed t v, .logExc e, .finCall fid t (.exc e)], none)) := by
  constructor
  · unfold stepF
    simp only [stepX, henv, hb, he, if_true]
  · intro fid hfid
    unfold stepF
    simp only [stepX, henv, hb, he, if_true, finalizeF, svcF, hfid]

/-- C8, amended, witness: task `0` raises the ordinary exception
`user 5`; `_step` logs it, calls its finalizer `99` with the exception,
and returns normally. -/
theorem c8_amended_fault_contained_witness :
    stepF userFaultEnv 3 faultState 0 Value.pnone =
      ({ faultState with finalizers := alistRemove 0 faultState.finalizers },
       [.resumed 0 Value.pnone, .logExc (.user 5),
        .finCall 99 0 (Value.exc (.user 5))], none) :=
  (c8_amended_fault_contained userFaultEnv faultState 0
      (fun _ => Outcome.fault (Exc.user 5)) Value.pnone (Exc.user 5) 1
      rfl rfl rfl).2 99 rfl

/-- C9, counterexample: in the state `close` leaves behind after removing
the last waiter of interface 7, every task has left the system (the timed
queue is empty and every paused set is empty), yet the paused table still
holds the interface-7 key, so `run()`'s `while _queue or _paused` test is
still true — the paused table does **not** count as empty — and the loop
keeps polling without ever returning (here: ten straight poll timeouts
leave the state unchanged and the loop still running). -/
theorem c9_empty_key_keeps_run_alive :
    noTaskInSystem emptyKeyState = true ∧
    runCond emptyKeyState = true ∧
    runF (mkEnv []) 20 (List.replicate 10 none) emptyKeyState =
      RunRes.outOfFuel emptyKeyState [] := by
  refine ⟨by decide, by decide, by decide⟩

/-- C9, amended: `run()` returns once the timed queue is empty and the
paused table has no interface entries at all (`runCond` is false exactly
then, and the loop then returns immediately).  But an interface entry
whose task set has been emptied (for example by `close`) keeps its key —
keys are removed only when an I/O or synthetic event pops them — so after
every task has left the system the paused table need not count as empty:
as long as some (possibly empty) interface entry remains and polls keep
timing out, `run()` never returns. -/
theorem c9_amended_run_test (env : Env) (s : State) (fuel : Nat)
    (trace : List (Option (Nat × Value))) (n : Nat) :
    (runCond s = false ↔ s.queue = [] ∧ s.paused = []) ∧
    (runCond s = false → runF env (fuel + 1) trace s = .returned s []) ∧
    (s.queue = [] → s.paused ≠ [] → pausedSetsEmpty s = true →
      runF env fuel (List.replicate n none) s = .outOfFuel s []) := by
  refine ⟨?_, ?_, ?_⟩
  · cases hq : s.queue <;> cases hp : s.paused <;> simp [runCond, hq, hp]
  · intro h
    simp [runF, h]
  · intro hq hp _
    have hcond : runCond s = true := by
      cases hps : s.paused with
      | nil => exact absurd hps hp
      | cons e es => simp [runCond, hq, hps]
    have hpop : queuePopMin s = none := by
      simp [queuePopMin, hq]
    induction fuel generalizing n with
    | zero => simp [runF]
    | succ fuel ih =>
      cases n with
      | zero => simp [runF, hcond]
      | succ m =>
        simp only [List.replicate_succ, runF, hcond, if_true, hpop]
        exact ih m

/-- C9, amended, witness: the loop test is false on the genuinely empty
state and `run` returns at once, while the empty-key state keeps the loop
alive through three timed-out polls. -/
theorem c9_amended_run_test_witness :
    runF (mkEnv []) 5 [] emptyState = .returned emptyState [] ∧
    runF (mkEnv []) 5 (List.replicate 3 none) emptyKeyState =
      .outOfFuel emptyKeyState [] :=
  ⟨(c9_amended_run_test (mkEnv []) emptyState 4 [] 0).2.1 (by decide),
   (c9_amended_run_test (mkEnv []) emptyKeyState 5 [] 3).2.2 rfl
     (by decide) (by decide)⟩

/-- C10: for a `race` constructed with zero children, `handle(caller)`
schedules nothing — the timed queue, paused table and finalizer table are
exactly as before, no scheduling event is emitted, and the race object
merely records the callback with an empty scheduled list and
`finished = false`.  Since `_finish` is only ever invoked as the
finalizer of a scheduled child and none exists, the race never completes.
Concretely, running the loop with task `0` awaiting `race()` steps the
caller once (the `await`), then `run()` returns with the caller in no
scheduler table, never resumed with a result, never finalized, and never
scheduled again. -/
theorem c10_empty_race_never_completes :
    (∀ (s : State) (rid caller : Nat) (r : RaceState),
      alistLookup rid s.races = some r → r.children = [] →
      (raceHandleF s rid caller).1.queue = s.queue ∧
      (raceHandleF s rid caller).1.paused = s.paused ∧
      (raceHandleF s rid caller).1.finalizers = s.finalizers ∧
      (raceHandleF s rid caller).2 = [] ∧
      alistLookup rid (raceHandleF s rid caller).1.races =
        some { r with callback := some caller, scheduled := [], finished := false }) ∧
    runF awaitRaceEnv 5 [none] emptyRaceState =
      RunRes.returned
        { emptyRaceState with
          queue := [],
          races := [(1, { children := [], scheduled := [], finished := false,
                          callback := some 0 })] }
        [Event.resumed 0 Value.pnone] ∧
    taskInTables
      { emptyRaceState with
        queue := [],
        races := [(1, { children := [], scheduled := [], finished := false,
                        callback := some 0 })] } 0 = false ∧
    finInvocationsFor [Event.resumed 0 Value.pnone] 0 = [] ∧
    schedEventsFor [Event.resumed 0 Value.pnone] 0 = [] := by
  refine ⟨?_, by decide, by decide, by decide, by decide⟩
  intro s rid caller r hr hc
  simp [raceHandleF, hr, hc, raceScheduleChildren, alistLookup_insert_self]

/-- C10, witness: the general part applied to the scenario state. -/
theorem c10_empty_race_never_completes_witness :
    (raceHandleF emptyRaceState 1 0).1.queue = emptyRaceState.queue ∧
    (raceHandleF emptyRaceState 1 0).1.paused = emptyRaceState.paused ∧
    (raceHandleF emptyRaceState 1 0).1.finalizers = emptyRaceState.finalizers ∧
    (raceHandleF emptyRaceState 1 0).2 = [] ∧
    alistLookup 1 (raceHandleF emptyRaceState 1 0).1.races =
      some { children := [], scheduled := [], finished := false, callback := some 0 } :=
  c10_empty_race_never_completes.1 emptyRaceState 1 0
    { children := [], scheduled := [], finished := false, callback := none } rfl rfl

/-- C5: for any task `t` scheduled with user finalizer `fid` (any resume
value, any deadline), `schedule(t); close(t)` leaves `t` absent from the
timed queue and from every paused set, and the trace contains exactly one
finalizer invocation for `t`: the call of `fid` with `t` and the
`GeneratorExit` value. -/
theorem c5_schedule_close_roundtrip (s : State) (t : Nat) (v : Value)
    (d : Option Int) (fid : Nat) (fuel : Nat) :
    (∀ e ∈ (closeF (fuel + 1 + 1) (scheduleOp s t v d (some (.user fid))).1 t).1.queue,
      e.2.1 ≠ t) ∧
    (∀ p ∈ (closeF (fuel + 1 + 1) (scheduleOp s t v d (some (.user fid))).1 t).1.paused,
      t ∉ p.2) ∧
    finInvocationsFor
      (closeF (fuel + 1 + 1) (scheduleOp s t v d (some (.user fid))).1 t).2 t =
      [Event.finCall fid t (.exc .generatorExit)] := by
  have hlook : alistLookup t
      (queueDiscard (pausedDiscardAll (scheduleOp s t v d (some (.user fid))).1 t) t).finalizers =
      some (FinRef.user fid) := by
    show alistLookup t (alistInsert t (FinRef.user fid) s.finalizers) = some (FinRef.user fid)
    exact alistLookup_insert_self t (FinRef.user fid) s.finalizers
  have hclose : closeF (fuel + 1 + 1) (scheduleOp s t v d (some (.user fid))).1 t =
      ({ queueDiscard (pausedDiscardAll (scheduleOp s t v d (some (.user fid))).1 t) t with
          finalizers := alistRemove t
            (queueDiscard (pausedDiscardAll (scheduleOp s t v d (some (.user fid))).1 t) t).finalizers },
       [.taskClosed t, .finCall fid t (.exc .generatorExit)]) := by
    unfold closeF
    simp only [svcF, hlook]
  refine ⟨?_, ?_, ?_⟩
  · intro e he
    rw [hclose] at he
    have : e ∈ ((scheduleOp s t v d (some (.user fid))).1.queue).filter
        (fun e => e.2.1 ≠ t) := he
    have := (List.mem_filter.mp this).2
    simpa using this
  · intro p hp
    rw [hclose] at hp
    have hm : p ∈ ((scheduleOp s t v d (some (.user fid))).1.paused).map
        (fun e => (e.1, e.2.filter (fun x => x ≠ t))) := hp
    obtain ⟨q, _, rfl⟩ := List.mem_map.mp hm
    intro hmem
    have := (List.mem_filter.mp hmem).2
    simp at this
  · rw [hclose]
    simp [finInvocationsFor, isFinInvocationFor]

/-! ## Finalizer single-shot lemmas (for C4) -/

theorem scheduleOp_none_finalizers (s : State) (t : Nat) (v : Value) (d : Option Int) :
    (scheduleOp s t v d none).1.finalizers = s.finalizers := rfl

/-- None of the scheduler services ever creates a finalizer entry: if task
`t` has no entry, every `finalize` / `race._finish` / `race.exit` /
`close` call (on any task) leaves `t` without an entry and invokes no
finalizer for `t`. -/
theorem svcF_fin_absent (t : Nat) : ∀ (fuel : Nat) (s : State) (op : SvcOp),
    alistLookup t s.finalizers = none →
    alistLookup t (svcF fuel s op).1.finalizers = none ∧
    finInvocationsFor (svcF fuel s op).2 t = [] := by
  intro fuel
  induction fuel with
  | zero => exact fun s op h => ⟨h, rfl⟩
  | succ fuel ih =>
    intro s op h
    cases op with
    | fin task value =>
      simp only [svcF]
      cases h2 : alistLookup task s.finalizers with
      | none => exact ⟨h, rfl⟩
      | some fin =>
        have htne : t ≠ task := by
          intro hh
          rw [← hh] at h2
          rw [h] at h2
          cases h2
        have hrm : alistLookup t (alistRemove task s.finalizers) = none := by
          rw [alistLookup_remove_ne _ htne]
          exact h
        cases fin with
        | user fid =>
          refine ⟨hrm, ?_⟩
          simp [finInvocationsFor, isFinInvocationFor, Ne.symm htne]
        | raceFinish rid =>
          have hx := ih { s with finalizers := alistRemove task s.finalizers }
            (.finish rid task value) hrm
          refine ⟨hx.1, ?_⟩
          have e1 := hx.2
          simp only [finInvocationsFor] at e1 ⊢
          simp [isFinInvocationFor, Ne.symm htne, e1]
    | finish rid task result =>
      simp only [svcF]
      cases h2 : alistLookup rid s.races with
      | none => exact ⟨h, rfl⟩
      | some r =>
        dsimp only
        cases hFin : r.finished with
        | true =>
          rw [if_pos rfl]
          exact ⟨h, rfl⟩
        | false =>
          rw [if_neg Bool.false_ne_true]
          cases h3 : r.callback with
          | none =>
            exact ih
              { s with races :=
                  alistInsert rid { r with finished := true, callback := none } s.races }
              (.exitLoop r.scheduled task) h
          | some cb =>
            have hx := ih
              { s with races :=
                  alistInsert rid { r with finished := true, callback := some cb } s.races }
              (.exitLoop r.scheduled task) h
            refine ⟨hx.1, ?_⟩
            have e1 := hx.2
            simp only [finInvocationsFor] at e1 ⊢
            simp [List.filter_append, isFinInvocationFor, e1, scheduleOp]
    | exitLoop cs exceptFor =>
      cases cs with
      | nil =>
        simp only [svcF]
        exact ⟨h, rfl⟩
      | cons c cs' =>
        simp only [svcF]
        by_cases hce : c = exceptFor
        · rw [if_pos hce]
          exact ih s (.exitLoop cs' exceptFor) h
        · rw [if_neg hce]
          have h1 := ih s (.close c) h
          have h2 := ih (svcF fuel s (.close c)).1 (.exitLoop cs' exceptFor) h1.1
          refine ⟨h2.1, ?_⟩
          have e1 := h1.2
          have e2 := h2.2
          simp only [finInvocationsFor] at e1 e2 ⊢
          simp [List.filter_append, e1, e2]
    | close task =>
      simp only [svcF]
      have hx := ih (queueDiscard (pausedDiscardAll s task) task)
        (.fin task (.exc .generatorExit)) h
      refine ⟨hx.1, ?_⟩
      have e1 := hx.2
      simp only [finInvocationsFor] at e1 ⊢
      simp [isFinInvocationFor, e1]

/-- `finalize(t, v)` pops `t`'s entry: afterwards `t` has no finalizer
entry (the cascade through `race._finish` never re-creates one). -/
theorem finalizeF_removes_entry (fuel : Nat) (s : State) (t : Nat) (v : Value) :
    alistLookup t (finalizeF (fuel + 1) s t v).1.finalizers = none := by
  cases h : alistLookup t s.finalizers with
  | none =>
    simp [finalizeF, svcF, h]
  | some fin =>
    cases fin with
    | user fid =>
      simp only [finalizeF, svcF, h]
      exact alistLookup_remove_self t s.finalizers
    | raceFinish rid =>
      simp only [finalizeF, svcF, h]
      exact (svcF_fin_absent t fuel _ (.finish rid t v)
        (alistLookup_remove_self t s.finalizers)).1

/-- `close(t)` pops `t`'s finalizer entry. -/
theorem closeF_removes_entry (fuel : Nat) (s : State) (t : Nat) :
    alistLookup t (closeF (fuel + 1 + 1) s t).1.finalizers = none := by
  show alistLookup t
    (finalizeF (fuel + 1) (queueDiscard (pausedDiscardAll s t) t) t
      (.exc .generatorExit)).1.finalizers = none
  exact finalizeF_removes_entry fuel (queueDiscard (pausedDiscardAll s t) t) t
    (.exc .generatorExit)

/-- C4: a task's finalizer runs at most once across termination, fault
and close, because `finalize` pops the entry and calls it in one step.
After a first `close(t)` or `finalize(t, _)` (with enough fuel to reach
the pop), a second `close(t)` or `finalize(t, _)` — with any fuel —
invokes no finalizer for `t`; in particular closing the same task twice
runs the finalizer only the first time. -/
theorem c4_finalizer_at_most_once (s : State) (t : Nat) (v w : Value)
    (fuel1 fuel2 : Nat) :
    finInvocationsFor (closeF fuel2 (closeF (fuel1 + 1 + 1) s t).1 t).2 t = [] ∧
    finInvocationsFor (finalizeF fuel2 (closeF (fuel1 + 1 + 1) s t).1 t w).2 t = [] ∧
    finInvocationsFor (closeF fuel2 (finalizeF (fuel1 + 1) s t v).1 t).2 t = [] ∧
    finInvocationsFor (finalizeF fuel2 (finalizeF (fuel1 + 1) s t v).1 t w).2 t = [] :=
  ⟨(svcF_fin_absent t fuel2 _ (.close t) (closeF_removes_entry fuel1 s t)).2,
   (svcF_fin_absent t fuel2 _ (.fin t w) (closeF_removes_entry fuel1 s t)).2,
   (svcF_fin_absent t fuel2 _ (.close t) (finalizeF_removes_entry fuel1 s t v)).2,
   (svcF_fin_absent t fuel2 _ (.fin t w) (finalizeF_removes_entry fuel1 s t v)).2⟩

/-! ## Race cascade lemmas (for C3) -/

/-- One-step unfolding of the `race.exit` loop. -/
theorem svcF_exit_cons (fuel : Nat) (s : State) (c : Nat) (cs : List Nat) (ef : Nat) :
    svcF (fuel + 1) s (.exitLoop (c :: cs) ef) =
      if c = ef then svcF fuel s (.exitLoop cs ef)
      else
        ((svcF fuel (svcF fuel s (.close c)).1 (.exitLoop cs ef)).1,
         (svcF fuel s (.close c)).2 ++
           (svcF fuel (svcF fuel s (.close c)).1 (.exitLoop cs ef)).2) := by
  rw [svcF]

/-- One-step unfolding of `race._finish`. -/
theorem svcF_finish_unfold (fuel : Nat) (s : State) (rid task : Nat) (result : Value) :
    svcF (fuel + 1) s (.finish rid task result) =
      (match alistLookup rid s.races with
        | none => (s, [])
        | some r =>
          if r.finished then (s, [])
          else
            let s' := { s with races := alistInsert rid { r with finished := true } s.races }
            let e := svcF fuel s' (.exitLoop r.scheduled task)
            match r.callback with
            | none => e
            | some cb =>
              let e2 := scheduleOp e.1 cb result none none
              (e2.1, e.2 ++ e2.2)) := by
  rw [svcF]

/-- `race._finish` on an already-finished race is a guarded no-op. -/
theorem finishF_noop (s : State) (rid t2 : Nat) (v2 : Value) (r : RaceState)
    (hr : alistLookup rid s.races = some r) (hf : r.finished = true) :
    ∀ fuel, svcF fuel s (.finish rid t2 v2) = (s, []) := by
  intro fuel
  cases fuel with
  | zero => rfl
  | succ fuel => simp [svcF, hr, hf]

/-- `finalize(c, v)` when `c`'s finalizer is `race._finish` of an
already-finished race: the entry is popped, `_finish` is invoked and
immediately returns. -/
theorem finalizeF_guarded (fuel : Nat) (s : State) (c rid : Nat) (v : Value)
    (rr : RaceState)
    (hc : alistLookup c s.finalizers = some (.raceFinish rid))
    (hr : alistLookup rid s.races = some rr) (hf : rr.finished = true) :
    svcF (fuel + 1) s (.fin c v) =
      ({ s with finalizers := alistRemove c s.finalizers },
       [.raceFinishCall rid c v]) := by
  have hr' : alistLookup rid
      ({ s with finalizers := alistRemove c s.finalizers } : State).races = some rr := hr
  simp only [svcF, hc]
  rw [finishF_noop _ rid c v rr hr' hf fuel]

/-- `close(c)` for a loser `c` of an already-finished race `rid`: the
tables drop `c`, `c.close()` runs, and the finalizer fires as a guarded
no-op. -/
theorem closeF_race_child (fuel : Nat) (s : State) (c rid : Nat) (rr : RaceState)
    (hc : alistLookup c s.finalizers = some (.raceFinish rid))
    (hr : alistLookup rid s.races = some rr) (hf : rr.finished = true) :
    svcF (fuel + 1 + 1) s (.close c) =
      (closedState s c,
       [.taskClosed c, .raceFinishCall rid c (.exc .generatorExit)]) := by
  have hmid : svcF (fuel + 1) (queueDiscard (pausedDiscardAll s c) c)
      (.fin c (.exc .generatorExit)) =
      ({ queueDiscard (pausedDiscardAll s c) c with
          finalizers := alistRemove c s.finalizers },
       [.raceFinishCall rid c (.exc .generatorExit)]) :=
    finalizeF_guarded fuel (queueDiscard (pausedDiscardAll s c) c) c rid
      (.exc .generatorExit) rr hc hr hf
  show ((svcF (fuel + 1) (queueDiscard (pausedDiscardAll s c) c)
      (.fin c (.exc .generatorExit))).1,
    Event.taskClosed c :: (svcF (fuel + 1) (queueDiscard (pausedDiscardAll s c) c)
      (.fin c (.exc .generatorExit))).2) = _
  rw [hmid]
  rfl

theorem exitEvents_no_sched (rid ef x : Nat) :
    ∀ cs, schedEventsFor (exitEvents rid ef cs) x = [] := by
  intro cs
  induction cs with
  | nil => rfl
  | cons c cs ih =>
    by_cases h : c = ef <;>
      simp only [exitEvents, h, if_pos, if_neg, ite_true, ite_false] <;>
      simp [schedEventsFor, isSchedFor] <;>
      simpa [schedEventsFor, isSchedFor] using ih

theorem exitEvents_mem_taskClosed (rid ef : Nat) :
    ∀ cs c, c ∈ cs → c ≠ ef → Event.taskClosed c ∈ exitEvents rid ef cs := by
  intro cs
  induction cs with
  | nil => intro c hc; cases hc
  | cons c' cs ih =>
    intro c hc hne
    rcases List.mem_cons.mp hc with hh | hh
    · subst hh
      rw [exitEvents, if_neg hne]
      exact List.mem_cons_self _ _
    · by_cases h' : c' = ef
      · rw [exitEvents, if_pos h']
        exact ih c hh hne
      · rw [exitEvents, if_neg h']
        exact List.mem_cons_of_mem _ (List.mem_cons_of_mem _ (ih c hh hne))

/-- `race.exit` over losers whose finalizers are the guarded `_finish` of
the already-finished race `rid`: the race entry survives untouched, the
clock is unchanged, and the trace is exactly one close plus one guarded
finalizer call per loser. -/
theorem exitF_losers (rid exceptFor : Nat) :
    ∀ (cs : List Nat) (fuel : Nat) (s : State) (rr : RaceState),
      cs.Nodup →
      (∀ c ∈ cs, alistLookup c s.finalizers = some (.raceFinish rid)) →
      alistLookup rid s.races = some rr →
      rr.finished = true →
      cs.length + 2 ≤ fuel →
      alistLookup rid (svcF fuel s (.exitLoop cs exceptFor)).1.races = some rr ∧
      (svcF fuel s (.exitLoop cs exceptFor)).1.clock = s.clock ∧
      (svcF fuel s (.exitLoop cs exceptFor)).2 = exitEvents rid exceptFor cs := by
  intro cs
  induction cs with
  | nil =>
    intro fuel s rr _ _ hr _ hfuel
    cases fuel with
    | zero => omega
    | succ f => exact ⟨hr, rfl, rfl⟩
  | cons c cs ih =>
    intro fuel s rr hnd hfin hr hf hfuel
    cases fuel with
    | zero => omega
    | succ f =>
      by_cases hce : c = exceptFor
      · have hx := ih f s rr hnd.of_cons
          (fun c' hc' => hfin c' (List.mem_cons_of_mem _ hc')) hr hf (by
            simp only [List.length_cons] at hfuel
            omega)
        rw [svcF_exit_cons, if_pos hce]
        refine ⟨hx.1, hx.2.1, ?_⟩
        rw [hx.2.2, exitEvents, if_pos hce]
      · obtain ⟨f2, rfl⟩ : ∃ f2, f = f2 + 1 + 1 := by
          refine ⟨f - 2, ?_⟩
          simp only [List.length_cons] at hfuel
          omega
        have hclose := closeF_race_child f2 s c rid rr
          (hfin c (List.mem_cons_self _ _)) hr hf
        have hfin' : ∀ c' ∈ cs,
            alistLookup c' (closedState s c).finalizers = some (.raceFinish rid) := by
          intro c' hc'
          have hne : c' ≠ c := by
            intro hh
            rw [hh] at hc'
            exact (List.nodup_cons.mp hnd).1 hc'
          show alistLookup c' (alistRemove c s.finalizers) = some (.raceFinish rid)
          rw [alistLookup_remove_ne _ hne]
          exact hfin c' (List.mem_cons_of_mem _ hc')
        have hr' : alistLookup rid (closedState s c).races = some rr := hr
        have hx := ih (f2 + 1 + 1) (closedState s c) rr hnd.of_cons hfin' hr' hf (by
          simp only [List.length_cons] at hfuel
          omega)
        rw [svcF_exit_cons, if_neg hce, hclose]
        refine ⟨?_, ?_, ?_⟩
        · exact hx.1
        · show (svcF (f2 + 1 + 1) (closedState s c) (.exitLoop cs exceptFor)).1.clock = s.clock
          rw [hx.2.1]
          rfl
        · show Event.taskClosed c :: Event.raceFinishCall rid c (.exc .generatorExit) ::
            (svcF (f2 + 1 + 1) (closedState s c) (.exitLoop cs exceptFor)).2 =
            exitEvents rid exceptFor (c :: cs)
          rw [hx.2.2, exitEvents, if_neg hce]

/-- C3: when the first scheduled child `t` of race `rid` finalizes with
result `v` (race not yet finished, caller stored, every scheduled child
registered with `race._finish` as its finalizer), `_finish` schedules the
caller exactly once with `v`, closes every other scheduled child (the
cascaded finalizer calls of those children are guarded no-ops), marks the
race finished, and every later `_finish` invocation — any child, any
result, any fuel — leaves the state unchanged and emits nothing, so the
caller is never resumed again. -/
theorem c3_race_resumes_caller_once (s : State) (rid t caller : Nat) (v : Value)
    (r : RaceState) (fuel : Nat)
    (hr : alistLookup rid s.races = some r)
    (hnf : r.finished = false)
    (hcb : r.callback = some caller)
    (hnd : r.scheduled.Nodup)
    (hfin : ∀ c ∈ r.scheduled, alistLookup c s.finalizers = some (.raceFinish rid))
    (hfuel : r.scheduled.length + 3 ≤ fuel) :
    schedEventsFor (finishF fuel s rid t v).2 caller =
      [Event.sched caller v s.clock] ∧
    (∀ c ∈ r.scheduled, c ≠ t →
      Event.taskClosed c ∈ (finishF fuel s rid t v).2) ∧
    alistLookup rid (finishF fuel s rid t v).1.races =
      some { r with finished := true } ∧
    (∀ fuel2 t2 v2, finishF fuel2 (finishF fuel s rid t v).1 rid t2 v2 =
      ((finishF fuel s rid t v).1, [])) := by
  obtain ⟨f, rfl⟩ : ∃ f, fuel = f + 1 := ⟨fuel - 1, by omega⟩
  have hr1 : alistLookup rid
      ({ s with races := alistInsert rid { r with finished := true } s.races } : State).races =
      some { r with finished := true } :=
    alistLookup_insert_self rid { r with finished := true } s.races
  have hx := exitF_losers rid t r.scheduled f
    { s with races := alistInsert rid { r with finished := true} s.races }
    { r with finished := true } hnd hfin hr1 rfl (by omega)
  have hred : finishF (f + 1) s rid t v =
      ((scheduleOp (svcF f
          { s with races := alistInsert rid { r with finished := true } s.races }
          (.exitLoop r.scheduled t)).1 caller v none none).1,
       (svcF f { s with races := alistInsert rid { r with finished := true } s.races }
          (.exitLoop r.scheduled t)).2 ++
       (scheduleOp (svcF f
          { s with races := alistInsert rid { r with finished := true } s.races }
          (.exitLoop r.scheduled t)).1 caller v none none).2) := by
    show svcF (f + 1) s (.finish rid t v) = _
    rw [svcF_finish_unfold, hr]
    try dsimp only
    rw [hnf]
    rw [if_neg Bool.false_ne_true]
    try dsimp only
    rw [hcb]
  have hclk : (svcF f { s with races := alistInsert rid { r with finished := true } s.races }
      (.exitLoop r.scheduled t)).1.clock = s.clock := hx.2.1
  refine ⟨?_, ?_, ?_, ?_⟩
  · rw [hred]
    rw [show (scheduleOp (svcF f
        { s with races := alistInsert rid { r with finished := true } s.races }
        (.exitLoop r.scheduled t)).1 caller v none none).2 =
      [Event.sched caller v (svcF f
        { s with races := alistInsert rid { r with finished := true } s.races }
        (.exitLoop r.scheduled t)).1.clock] from rfl]
    rw [hclk]
    show schedEventsFor _ caller = _
    rw [schedEventsFor, List.filter_append, hx.2.2]
    rw [show List.filter (isSchedFor caller) (exitEvents rid t r.scheduled) =
      schedEventsFor (exitEvents rid t r.scheduled) caller from rfl]
    rw [exitEvents_no_sched rid t caller r.scheduled]
    simp [isSchedFor]
  · intro c hc hne
    rw [hred]
    refine List.mem_append_left _ ?_
    rw [hx.2.2]
    exact exitEvents_mem_taskClosed rid t r.scheduled c hc hne
  · rw [hred]
    show alistLookup rid (svcF f
      { s with races := alistInsert rid { r with finished := true } s.races }
      (.exitLoop r.scheduled t)).1.races = some { r with finished := true }
    exact hx.1
  · intro fuel2 t2 v2
    rw [hred]
    have hlook : alistLookup rid
        ((scheduleOp (svcF f
          { s with races := alistInsert rid { r with finished := true } s.races }
          (.exitLoop r.scheduled t)).1 caller v none none).1).races =
        some { r with finished := true } := hx.1
    exact finishF_noop _ rid t2 v2 { r with finished := true } hlook rfl fuel2

/-- C3, witness: race `5` with scheduled children `1`, `2` and caller `0`;
child `1` finalizes with value `42`. -/
theorem c3_race_resumes_caller_once_witness :
    schedEventsFor (finishF 6 racePostHandleState 5 1 (Value.int 42)).2 0 =
      [Event.sched 0 (Value.int 42) 0] :=
  (c3_race_resumes_caller_once racePostHandleState 5 1 0 (Value.int 42)
    { children := [1, 2], scheduled := [1, 2], finished := false, callback := some 0 }
    6 rfl rfl rfl (by decide) (by decide) (by decide)).1

/-! ## Channel lemmas (for C6 and C7) -/

theorem chanInv_scheduleOp (s : State) (t : Nat) (v : Value) (d : Option Int) (ch : Nat) :
    chanInv (scheduleOp s t v d none).1 ch = chanInv s ch := rfl

/-- Every single `publish` / `_schedule_put` / `_schedule_take` preserves
the mutual-exclusion invariant of every channel. -/
theorem applyChanOp_inv (s : State) (p : Nat × ChanOp)
    (h : ∀ ch', chanInv s ch' = true) (ch' : Nat) :
    chanInv (applyChanOp s p) ch' = true := by
  obtain ⟨ch0, op⟩ := p
  cases op with
  | publish v =>
    show chanInv (chanPublishF s ch0 v).1 ch' = true
    cases h2 : alistLookup ch0 s.chans with
    | none =>
      simp only [chanPublishF, h2]
      exact h ch'
    | some c =>
      have hinv := h ch0
      simp only [chanInv, h2] at hinv
      cases htk : c.takers with
      | cons tk rest =>
        rw [htk] at hinv
        simp only [List.isEmpty_cons, Bool.or_false] at hinv
        simp only [chanPublishF, h2, htk]
        rw [chanInv_scheduleOp]
        by_cases hch : ch' = ch0
        · subst hch
          simp only [chanInv, alistLookup_insert_self]
          simp [hinv]
        · simp only [chanInv]
          rw [alistLookup_insert_ne _ _ hch]
          exact h ch'
      | nil =>
        simp only [chanPublishF, h2, htk]
        by_cases hch : ch' = ch0
        · subst hch
          simp only [chanInv, alistLookup_insert_self]
          simp [htk]
        · simp only [chanInv]
          rw [alistLookup_insert_ne _ _ hch]
          exact h ch'
  | putHandle task v =>
    show chanInv (chanSchedulePutF s ch0 task v).1 ch' = true
    cases h2 : alistLookup ch0 s.chans with
    | none =>
      simp only [chanSchedulePutF, h2]
      exact h ch'
    | some c =>
      have hinv := h ch0
      simp only [chanInv, h2] at hinv
      cases htk : c.takers with
      | cons tk rest =>
        rw [htk] at hinv
        simp only [List.isEmpty_cons, Bool.or_false] at hinv
        simp only [chanSchedulePutF, h2, htk]
        rw [chanInv_scheduleOp, chanInv_scheduleOp]
        by_cases hch : ch' = ch0
        · subst hch
          simp only [chanInv, alistLookup_insert_self]
          simp [hinv]
        · simp only [chanInv]
          rw [alistLookup_insert_ne _ _ hch]
          exact h ch'
      | nil =>
        simp only [chanSchedulePutF, h2, htk]
        by_cases hch : ch' = ch0
        · subst hch
          simp only [chanInv, alistLookup_insert_self]
          simp [htk]
        · simp only [chanInv]
          rw [alistLookup_insert_ne _ _ hch]
          exact h ch'
  | takeHandle task =>
    show chanInv (chanScheduleTakeF s ch0 task).1 ch' = true
    cases h2 : alistLookup ch0 s.chans with
    | none =>
      simp only [chanScheduleTakeF, h2]
      exact h ch'
    | some c =>
      have hinv := h ch0
      simp only [chanInv, h2] at hinv
      cases hpt : c.putters with
      | cons pv rest =>
        obtain ⟨popt, pval⟩ := pv
        rw [hpt] at hinv
        simp only [List.isEmpty_cons, Bool.false_or] at hinv
        simp only [chanScheduleTakeF, h2, hpt]
        cases popt with
        | some p =>
          rw [chanInv_scheduleOp, chanInv_scheduleOp]
          by_cases hch : ch' = ch0
          · subst hch
            simp only [chanInv, alistLookup_insert_self]
            simp [hinv]
          · simp only [chanInv]
            rw [alistLookup_insert_ne _ _ hch]
            exact h ch'
        | none =>
          rw [chanInv_scheduleOp]
          by_cases hch : ch' = ch0
          · subst hch
            simp only [chanInv, alistLookup_insert_self]
            simp [hinv]
          · simp only [chanInv]
            rw [alistLookup_insert_ne _ _ hch]
            exact h ch'
      | nil =>
        simp only [chanScheduleTakeF, h2, hpt]
        by_cases hch : ch' = ch0
        · subst hch
          simp only [chanInv, alistLookup_insert_self]
          simp [hpt]
        · simp only [chanInv]
          rw [alistLookup_insert_ne _ _ hch]
          exact h ch'

/-- C6: for every channel and every sequence of `publish`, `Put.handle`
(`_schedule_put`) and `Take.handle` (`_schedule_take`) operations, if the
at-most-one-queue-non-empty invariant holds initially then it holds
afterwards: whenever `putters` is non-empty, `takers` is empty, and vice
versa. -/
theorem c6_chan_mutual_exclusion (ops : List (Nat × ChanOp)) (s : State) (ch : Nat)
    (h : ∀ ch', chanInv s ch' = true) :
    chanInv (ops.foldl applyChanOp s) ch = true := by
  induction ops generalizing s with
  | nil => exact h ch
  | cons p ops ih => exact ih (applyChanOp s p) (applyChanOp_inv s p h)

/-- C6, witness: a publish, a take and a put on the fresh channel `3`. -/
theorem c6_chan_mutual_exclusion_witness :
    chanInv
      ([(3, ChanOp.publish (.str "a")), (3, ChanOp.takeHandle 4),
        (3, ChanOp.putHandle 5 (.str "b"))].foldl applyChanOp oneChanState) 3 = true :=
  c6_chan_mutual_exclusion _ oneChanState 3 (fun ch' => by
    by_cases hc : ch' = 3
    · subst hc
      decide
    · simp only [chanInv, oneChanState, emptyState]
      simp [alistLookup, hc])

/-- Publishing a list of values on a channel with no parked takers parks
them, in order, as taskless putter entries; no scheduling happens. -/
theorem publishAll_parks (ch : Nat) : ∀ (vs : List Value) (s : State) (c : ChanState),
    alistLookup ch s.chans = some c → c.takers = [] →
    alistLookup ch (publishAll s ch vs).1.chans =
      some { c with putters := c.putters ++ vs.map (fun v => (none, v)) } ∧
    (publishAll s ch vs).1.clock = s.clock ∧
    (publishAll s ch vs).2 = [] := by
  intro vs
  induction vs with
  | nil =>
    intro s c hc _
    refine ⟨?_, rfl, rfl⟩
    simpa using hc
  | cons v vs ih =>
    intro s c hc htk
    have hpub : chanPublishF s ch v =
        ({ s with chans :=
            alistInsert ch { c with putters := c.putters ++ [(none, v)] } s.chans }, []) := by
      simp only [chanPublishF, hc, htk]
    have hc' : alistLookup ch
        ({ s with chans :=
            alistInsert ch { c with putters := c.putters ++ [(none, v)] } s.chans } :
            State).chans =
        some { c with putters := c.putters ++ [(none, v)] } :=
      alistLookup_insert_self ch _ s.chans
    have hx := ih _ _ hc' htk
    simp only [publishAll, hpub]
    refine ⟨?_, hx.2.1, hx.2.2⟩
    rw [hx.1]
    simp [List.append_assoc]

/-- Taking `ts` from a channel whose putters are exactly the published
values `vs` (no takers parked) schedules the `i`-th taker with the `i`-th
value, in FIFO order, and consumes exactly the first `ts.length`
values. -/
theorem takeAll_fifo (ch : Nat) : ∀ (ts : List Nat) (vs : List Value) (s : State),
    alistLookup ch s.chans =
      some { putters := vs.map (fun v => (none, v)), takers := [] } →
    ts.length ≤ vs.length →
    (takeAll s ch ts).2 = (List.zip ts vs).map (fun p => Event.sched p.1 p.2 s.clock) ∧
    alistLookup ch (takeAll s ch ts).1.chans =
      some { putters := (vs.drop ts.length).map (fun v => (none, v)), takers := [] } := by
  intro ts
  induction ts with
  | nil =>
    intro vs s hc _
    exact ⟨rfl, by simpa using hc⟩
  | cons t ts ih =>
    intro vs s hc hlen
    cases vs with
    | nil => simp at hlen
    | cons v vs =>
      rw [List.map_cons] at hc
      have hstep : chanScheduleTakeF s ch t =
          ((scheduleOp { s with chans := alistInsert ch { putters := vs.map (fun v => (none, v)), takers := [] } s.chans } t v none none).1,
           [Event.sched t v s.clock]) := by
        simp only [chanScheduleTakeF, hc]
        rfl
      have hc' : alistLookup ch
          ((scheduleOp { s with chans := alistInsert ch { putters := vs.map (fun v => (none, v)), takers := [] } s.chans } t v none none).1).chans =
          some { putters := vs.map (fun v => (none, v)), takers := [] } :=
        alistLookup_insert_self ch _ s.chans
      have hx := ih vs _ hc' (by simp at hlen; omega)
      simp only [takeAll, hstep]
      constructor
      · rw [hx.1]
        have hck : ((scheduleOp { s with chans := alistInsert ch { putters := vs.map (fun v => (none, v)), takers := [] } s.chans } t v none none).1).clock = s.clock := rfl
        rw [hck]
        simp [List.zip]
      · rw [hx.2]
        simp

/-- C7: on a channel with no parked putters or takers, `publish`ing the
values `vs` schedules nothing; the subsequent `take`s (`_schedule_take`)
deliver the published values to the takers in FIFO order of publication —
the `i`-th taker is scheduled with the `i`-th value — and each delivered
value is consumed (only the values beyond the takes remain parked), so
every published value goes to exactly one future taker. -/
theorem c7_publish_take_fifo (s : State) (ch : Nat) (vs : List Value) (ts : List Nat)
    (hch : alistLookup ch s.chans = some { putters := [], takers := [] })
    (hlen : ts.length ≤ vs.length) :
    (publishAll s ch vs).2 = [] ∧
    (takeAll (publishAll s ch vs).1 ch ts).2 =
      (List.zip ts vs).map (fun p => Event.sched p.1 p.2 s.clock) ∧
    alistLookup ch (takeAll (publishAll s ch vs).1 ch ts).1.chans =
      some { putters := (vs.drop ts.length).map (fun v => (none, v)), takers := [] } := by
  have hpub := publishAll_parks ch vs s { putters := [], takers := [] } hch rfl
  have hc2 : alistLookup ch (publishAll s ch vs).1.chans =
      some { putters := vs.map (fun v => (none, v)), takers := [] } := by
    simpa using hpub.1
  have htake := takeAll_fifo ch ts vs (publishAll s ch vs).1 hc2 hlen
  refine ⟨hpub.2.2, ?_, htake.2⟩
  rw [htake.1, hpub.2.1]

/-- C7, witness: `publish("a"); publish("b")` then two takes by tasks `4`
and `5` deliver `"a"` to `4` and `"b"` to `5`, leaving the channel
empty. -/
theorem c7_publish_take_fifo_witness :
    (takeAll (publishAll oneChanState 3 [.str "a", .str "b"]).1 3 [4, 5]).2 =
      (List.zip [4, 5] [Value.str "a", Value.str "b"]).map
        (fun p => Event.sched p.1 p.2 oneChanState.clock) :=
  (c7_publish_take_fifo oneChanState 3 [.str "a", .str "b"] [4, 5] rfl
    (by decide)).2.1

end TrezorLoop
